import Mathlib

/-!
Verification of the SAP report data loader (`Data_Loader.py`, `Config.py`,
`explore_all.py`).

The development shallowly embeds the core logic of the repository:
  * `rowScore` / `findHeaderRow` embed `SAPDataLoader._find_header_row`;
  * `normalize` embeds steps 1-4 of `SAPDataLoader._load_single_report`
    (header slicing, pandas column naming, column/row cleanup);
  * `normalizeName` / `namesMatch` embed the `normalize_name` helper and
    the equality-after-normalization match used in `find_your_assignments`;
  * `loadAllReports` embeds the per-report loop of `load_all_reports`;
  * `Config.REPORT_FILES` and `findYourAssignments` embed the shipped
    configuration and the assignment search.

Cells are modelled as a tagged scalar: text, a non-text scalar carrying its
string rendering (numbers, dates, booleans all behave identically for the
logic under verification: they are non-empty, non-text, rendered by `str`),
or empty (pandas `NaN`).  Strings are Lean `String`s; `str.lower`/`str.strip`
are modelled over their character lists restricted to the ASCII range.
-/

/-- A spreadsheet cell: text, a non-text scalar carrying its `str` rendering,
or empty (pandas `NaN`). -/
inductive Cell where
  | text : String → Cell
  | num : String → Cell
  | empty : Cell
deriving DecidableEq

namespace Cell

/-- pandas `notna` is false exactly on empty cells. -/
def filled : Cell → Bool
  | .empty => false
  | _ => true

/-- Python `isinstance(val, str)`. -/
def isText : Cell → Bool
  | .text _ => true
  | _ => false

/-- Python `str(val)`.  `str` of pandas `NaN` is `"nan"`; the loader only
renders non-empty cells except in `find_your_assignments`' `astype(str)`. -/
def render : Cell → String
  | .text s => s
  | .num s => s
  | .empty => "nan"

end Cell

/-- ASCII model of Python `str.lower` applied to one character. -/
def lowerChar (c : Char) : Char :=
  if 65 ≤ c.toNat ∧ c.toNat ≤ 90 then Char.ofNat (c.toNat + 32) else c

/-- `beginsWith needle hay` holds when `needle` is an initial segment of
`hay`. -/
def beginsWith : List Char → List Char → Bool
  | [], _ => true
  | _ :: _, [] => false
  | a :: as, b :: bs => a == b && beginsWith as bs

/-- `containsSeq needle hay` models Python's substring test
`needle in hay`. -/
def containsSeq : List Char → List Char → Bool
  | needle, [] => needle.isEmpty
  | needle, c :: rest => beginsWith needle (c :: rest) || containsSeq needle rest

/-- Join character-lists with a single space, modelling `' '.join`. -/
def joinSpace : List (List Char) → List Char
  | [] => []
  | [t] => t
  | t :: t₂ :: ts => t ++ ' ' :: joinSpace (t₂ :: ts)

/-- The fixed keyword list of `_find_header_row`. -/
def headerKeywords : List String :=
  ["project", "name", "date", "status", "phase", "number",
   "assigned", "estimator", "location", "region", "pmo",
   "start", "end", "complete", "due", "schedule", "id"]

/-- `' '.join(str(val).lower() for val in row if pd.notna(val))`. -/
def rowText (row : List Cell) : List Char :=
  joinSpace ((row.filter Cell.filled).map (fun c => (Cell.render c).data.map lowerChar))

/-- Number of header keywords occurring as substrings of `t`. -/
def countKeywords (t : List Char) : Nat :=
  (headerKeywords.filter (fun kw => containsSeq kw.data t)).length

/-- `row.dropna().nunique()`: the number of distinct non-empty values. -/
def distinctCount (row : List Cell) : Nat :=
  ((row.filter Cell.filled).dedup).length

/-- The per-row score of `_find_header_row`: fill ratio × 100, text ratio
× 50, 30 per keyword match (computed only when some cell is non-empty,
exactly as in the source), +20 when more than 3 distinct non-empty values,
−50 when exactly one. -/
def rowScore (row : List Cell) : ℚ :=
  let n : ℚ := row.length
  let filledCount : ℚ := (row.filter Cell.filled).length
  let textCount : ℚ := (row.filter Cell.isText).length
  let base := filledCount / n * 100 + textCount / n * 50
  let base :=
    if row.any Cell.filled then base + (countKeywords (rowText row) : ℚ) * 30 else base
  let u := distinctCount row
  if u > 3 then base + 20 else if u = 1 then base - 50 else base

/-- The row score exactly as the specification words it: the keyword term is
unconditional, and the distinctness adjustment is written as two separate
summands. -/
def rowScoreSpec (row : List Cell) : ℚ :=
  let n : ℚ := row.length
  let filledCount : ℚ := (row.filter Cell.filled).length
  let textCount : ℚ := (row.filter Cell.isText).length
  let u := distinctCount row
  filledCount / n * 100 + textCount / n * 50
    + (countKeywords (rowText row) : ℚ) * 30
    + (if 3 < u then (20 : ℚ) else 0)
    - (if u = 1 then (50 : ℚ) else 0)

/-- `SAPDataLoader._find_header_row`: scan the first
`min maxRows sample.length` rows, tracking the best strictly-improving
score, starting from `(best_row, best_score) = (0, 0)`. -/
def findHeaderRow (sample : List (List Cell)) (maxRows : Nat) : Nat :=
  let n := min maxRows sample.length
  ((List.range n).foldl
    (fun (acc : Nat × ℚ) idx =>
      let score := rowScore (sample.getD idx [])
      if acc.2 < score then (idx, score) else acc)
    (0, 0)).1

example : findHeaderRow [[Cell.empty, Cell.empty], [Cell.text "project", Cell.text "name"]] 20 = 1 := by
  with_unfolding_all decide
example : findHeaderRow [[Cell.empty]] 20 = 0 := by with_unfolding_all decide

/-! ### Name matcher (`normalize_name` inside `find_your_assignments`) -/

/-- The delimiter class of `re.split(r'[,;\s]+', ...)`, with `\s` taken in
its ASCII extent. -/
def isDelim (c : Char) : Bool :=
  c == ',' || c == ';' || c == ' ' || c == '\t' || c == '\n' || c == '\r' ||
    c == '\x0b' || c == '\x0c'

/-- Split into the maximal runs of non-delimiter characters.  This combines
`re.split(r'[,;\s]+', s)` with the subsequent
`[w.strip() for w in words if w.strip()]`: the regex split can only produce
empty tokens (discarded by the filter) and tokens free of `\s` (on which
`strip` is the identity), so the composite yields exactly the maximal
delimiter-free runs. -/
def tokenize (cs : List Char) : List (List Char) :=
  match cs with
  | [] => []
  | c :: rest =>
    if isDelim c then tokenize rest
    else (c :: rest.takeWhile (fun d => !isDelim d)) ::
      tokenize (rest.dropWhile (fun d => !isDelim d))
termination_by cs.length
decreasing_by
  · simp
  · simp only [List.length_cons]
    exact Nat.lt_succ_of_le (List.dropWhile_sublist _).length_le

/-- Lexicographic comparison of character lists by code point, the order
Python's `sorted` uses on strings. -/
def lexLe : List Char → List Char → Bool
  | [], _ => true
  | _ :: _, [] => false
  | a :: as, b :: bs => a < b || (a == b && lexLe as bs)

/-- Ordered insertion for `sortToks`. -/
def insertTok (t : List Char) : List (List Char) → List (List Char)
  | [] => [t]
  | u :: us => if lexLe t u then t :: u :: us else u :: insertTok t us

/-- Insertion sort by `lexLe`.  `lexLe` is an antisymmetric total order, so
this computes the same list as Python's (stable) `sorted`. -/
def sortToks : List (List Char) → List (List Char)
  | [] => []
  | t :: ts => insertTok t (sortToks ts)

/-- `normalize_name`: lower-case, split on runs of comma/semicolon/space,
drop empty tokens, sort, rejoin with single spaces. -/
def normalizeName (s : String) : String :=
  ⟨joinSpace (sortToks (tokenize (s.data.map lowerChar)))⟩

/-- `names_match(a, b)`: equality after `normalize_name`, exactly as used on
each cell of the name column in `find_your_assignments`. -/
def namesMatch (a b : String) : Bool :=
  normalizeName a == normalizeName b

example : normalizeName "Sauer, Shaun" = "sauer shaun" := by with_unfolding_all decide
example : namesMatch "Sauer, Shaun" "shaun   sauer" = true := by with_unfolding_all decide
example : namesMatch "Shaun Sauer" "Shaun A. Sauer" = false := by with_unfolding_all decide

/-! ### Table normalizer (steps 1-4 of `_load_single_report`) -/

/-- Python `\s` (ASCII extent), the class removed by `str.strip`. -/
def isSpaceChar (c : Char) : Bool :=
  c == ' ' || c == '\t' || c == '\n' || c == '\r' || c == '\x0b' || c == '\x0c'

/-- Model of Python `str.strip` (as applied by
`df.columns.astype(str).str.strip()`). -/
def stripStr (s : String) : String :=
  ⟨((s.data.dropWhile isSpaceChar).reverse.dropWhile isSpaceChar).reverse⟩

/-- A normalized table: cleaned column names plus the surviving data rows,
each row aligned with `cols`. -/
structure Table where
  cols : List String
  rows : List (List Cell)
deriving DecidableEq

/-- Cell `j` of a row, with ragged rows read as padded with empty cells. -/
def cellAt (row : List Cell) (j : Nat) : Cell :=
  row.getD j Cell.empty

/-- The raw column name pandas assigns to header cell `c` at position `j`:
the cell's rendering, or the synthetic placeholder `"Unnamed: j"` when the
cell is empty (pandas' `Unnamed: {i}` for blank header fields). -/
def colName (j : Nat) (c : Cell) : String :=
  if Cell.render c == "" || c == Cell.empty then "Unnamed: " ++ toString j
  else Cell.render c

/-- Association-list update used by the name-deduplication counter table. -/
def insertCount (counts : List (String × Nat)) (k : String) (v : Nat) :
    List (String × Nat) :=
  (k, v) :: counts.eraseP (fun p => p.1 == k)

/-- The rename loop of pandas' duplicate-column mangling: while the current
name has been seen, append `.k` and retry.  `fuel` bounds the loop; it is
always sufficient for the finitely many names involved. -/
def dedupLoop (fuel : Nat) (counts : List (String × Nat)) (col : String)
    (cur : Nat) : String × List (String × Nat) :=
  match fuel with
  | 0 => (col, counts)
  | f + 1 =>
    if cur = 0 then (col, counts)
    else
      let counts := insertCount counts col (cur + 1)
      let col := col ++ "." ++ toString cur
      dedupLoop f counts col ((counts.lookup col).getD 0)

/-- pandas' `_maybe_dedup_names`: rename duplicated header names by
appending `.1`, `.2`, … so the frame's columns are distinct. -/
def dedupNames (names : List String) : List String :=
  (names.foldl
    (fun (acc : List String × List (String × Nat)) col =>
      let cur := ((acc.2.lookup col).getD 0)
      let r := dedupLoop (names.length + acc.2.length + 1) acc.2 col cur
      (acc.1 ++ [r.1], insertCount r.2 r.1 (((r.2.lookup r.1).getD 0) + 1)))
    ([], [])).1

example : dedupNames ["A", "A", "B"] = ["A", "A.1", "B"] := by with_unfolding_all decide
example : dedupNames ["A", "A", "A.1"] = ["A", "A.1", "A.1.1"] := by with_unfolding_all decide

/-- The cleaned column names of the frame read with header row `header`:
pandas naming, pandas dedup-mangling, then the loader's
`astype(str).str.strip()`. -/
def headerNames (header : List Cell) : List String :=
  (dedupNames (header.enum.map (fun jc => colName jc.1 jc.2))).map stripStr

/-- `'Unnamed' in str(col)`. -/
def hasUnnamed (s : String) : Bool :=
  containsSeq "Unnamed".data s.data

/-- The data rows of the frame: everything strictly after the header row,
aligned to the header's width. -/
def gridData (grid : List (List Cell)) (headerRow : Nat) : List (List Cell) :=
  let width := (grid.getD headerRow []).length
  (grid.drop (headerRow + 1)).map (fun r => (List.range width).map (cellAt r))

/-- The column positions surviving step 3 of `_load_single_report`: a column
is dropped exactly when its cleaned name contains `'Unnamed'` and every one
of its cells is empty. -/
def keptIndices (grid : List (List Cell)) (headerRow : Nat) : List Nat :=
  let names := headerNames (grid.getD headerRow [])
  let data := gridData grid headerRow
  (List.range (grid.getD headerRow []).length).filter
    (fun j => !(hasUnnamed (names.getD j "") &&
                data.all (fun r => !(cellAt r j).filled)))

/-- Steps 1-4 of `SAPDataLoader._load_single_report` as a pure transform on
a grid.  `none` models an exception caught by the surrounding
`try/except` — pandas raises when the header row lies beyond the grid
(`Passed header=.. but only .. lines`), and the `df[col]` lookup in the
unnamed-column loop raises when a cleaned name containing `'Unnamed'` is
duplicated (the lookup then yields a frame whose truth test is ambiguous).
Otherwise it drops the all-empty `Unnamed` columns, drops all-empty rows
(`dropna(how='all')`), and re-indexes the rows (`reset_index`). -/
def normalizeTable (grid : List (List Cell)) (headerRow : Nat) : Option Table :=
  if headerRow < grid.length then
    let names := headerNames (grid.getD headerRow [])
    let data := gridData grid headerRow
    if names.any (fun s => hasUnnamed s && 1 < names.count s) then none
    else
      let kept := keptIndices grid headerRow
      some ⟨kept.map (fun j => names.getD j ""),
            (data.map (fun r => kept.map (cellAt r))).filter
              (fun r => r.any Cell.filled)⟩
  else none

example :
    normalizeTable [[Cell.text "A", Cell.text "B", Cell.empty],
               [Cell.text "x", Cell.text "y", Cell.empty]] 0 =
      some ⟨["A", "B"], [[Cell.text "x", Cell.text "y"]]⟩ := by
  with_unfolding_all decide

example : normalizeTable [[Cell.empty, Cell.empty], [Cell.empty, Cell.empty]] 0 =
    some ⟨[], []⟩ := by with_unfolding_all decide

/-! ### Report catalog (`load_all_reports`) and assignment search -/

/-- `_load_single_report` as seen from the catalog loop: `none` is a missing
source file or any load error, `some` sources run header detection (with the
loader's `max_rows_to_check=20`) followed by the normalization steps. -/
def loadSingleReport (src : Option (List (List Cell))) : Option Table :=
  src.bind (fun g => normalizeTable g (findHeaderRow g 20))

/-- Result of a full catalog pass: the mapping that was built, plus the
`attempted`/`succeeded` counts printed as
`Successfully loaded {len(self.reports)}/{len(file_paths)} reports`. -/
structure LoadResult where
  reports : List (String × Table)
  attempted : Nat
  succeeded : Nat
deriving DecidableEq

/-- The loop of `load_all_reports`: load every configured source in order,
inserting a key only when its report loaded. -/
def loadAllReports (sources : List (String × Option (List (List Cell)))) :
    LoadResult :=
  let reports := sources.foldl
    (fun acc kv =>
      match loadSingleReport kv.2 with
      | some t => acc ++ [(kv.1, t)]
      | none => acc)
    []
  ⟨reports, sources.length, reports.length⟩

namespace Config

/-- `Config.REPORT_FILES`, verbatim from `Config.py`. -/
def REPORT_FILES : List (String × String) :=
  [("Cost Estimating", "sd-09 Cost Estimating Schedule.xlsx"),
   ("Milestone Schedule", "sd-01 Milestone Schedule.xlsx"),
   ("Contract Schedule", "sd-01 Contract Schedule.xlsx"),
   ("Order Data", "sd-17 PGE Gas Ops Order Data.xlsx")]

/-- `Config.USER_NAME`. -/
def USER_NAME : String := "Shaun Sauer"

end Config

/-- The keyword list of the name-column auto-detection in
`find_your_assignments`. -/
def nameColKeywords : List String := ["assign", "estimator", "name", "owner"]

/-- `SAPDataLoader.find_your_assignments`.  Returns `none` on its error
branches: the `'cost_estimating' not in self.reports` check, and the failed
column auto-detection.  (A caller-supplied column absent from the table
would raise an uncaught `KeyError` in the source; it is modelled as a failed
call as well.)  Otherwise it keeps the rows whose name-column cell matches
the user name after `normalize_name`. -/
def findYourAssignments (reports : List (String × Table))
    (nameColumn : Option String) (userName : Option String) :
    Option (List (List Cell)) :=
  match reports.lookup "cost_estimating" with
  | none => none
  | some df =>
    let user := userName.getD Config.USER_NAME
    let nameCol :=
      match nameColumn with
      | some c => some c
      | none =>
        (df.cols.filter (fun col =>
          nameColKeywords.any (fun kw =>
            containsSeq kw.data (col.data.map lowerChar)))).head?
    match nameCol with
    | none => none
    | some col =>
      match df.cols.indexOf? col with
      | none => none
      | some j =>
        some (df.rows.filter (fun r =>
          namesMatch (Cell.render (cellAt r j)) user))

/-! ### Lemmas: header detection -/

/-- The two phrasings of the row score agree: when every cell is empty the
source skips the keyword term, but the keyword count of the empty
concatenation is 0 anyway. -/
theorem rowScoreSpec_eq (row : List Cell) : rowScoreSpec row = rowScore row := by
  unfold rowScoreSpec rowScore
  by_cases h : row.any Cell.filled
  · simp only [h, if_true]
    split_ifs with h1 h2 <;> first | omega | ring
  · have hfilter : row.filter Cell.filled = [] :=
      List.filter_eq_nil_iff.mpr (by simpa [List.any_eq_true] using h)
    have hkw : countKeywords (rowText row) = 0 := by
      rw [rowText, hfilter]
      decide
    simp only [h, if_false, hkw]
    split_ifs <;> first | omega | ring

/-- Invariant of the scanning loop of `_find_header_row`: after scanning
rows `0..n`, either no row scored strictly above the initial best score `0`
and the accumulator still holds `(0, 0)`, or the accumulator holds the
earliest row attaining the maximal (strictly positive) score. -/
theorem headerFold_invariant (sample : List (List Cell)) (n : Nat) :
    (let acc := (List.range n).foldl
       (fun (acc : Nat × ℚ) idx =>
         let score := rowScore (sample.getD idx [])
         if acc.2 < score then (idx, score) else acc) (0, 0)
     (acc = (0, 0) ∧ ∀ i < n, rowScore (sample.getD i []) ≤ 0) ∨
       (acc.1 < n ∧ 0 < acc.2 ∧ rowScore (sample.getD acc.1 []) = acc.2 ∧
        (∀ i < n, rowScore (sample.getD i []) ≤ acc.2) ∧
        ∀ i < acc.1, rowScore (sample.getD i []) < acc.2)) := by
  induction n with
  | zero => exact Or.inl ⟨rfl, fun i hi => absurd hi (Nat.not_lt_zero i)⟩
  | succ n ih =>
    simp only [List.range_succ, List.foldl_append, List.foldl_cons, List.foldl_nil]
    simp only at ih
    set acc := (List.range n).foldl
       (fun (acc : Nat × ℚ) idx =>
         let score := rowScore (sample.getD idx [])
         if acc.2 < score then (idx, score) else acc) (0, 0) with hacc
    rcases ih with ⟨h0, hle⟩ | ⟨hlt, hpos, hsc, hmax, hmin⟩
    · rw [h0]
      by_cases hn : (0 : ℚ) < rowScore (sample.getD n [])
      · rw [if_pos hn]
        refine Or.inr ⟨Nat.lt_succ_self n, hn, rfl, ?_, ?_⟩
        · intro i hi
          rcases Nat.lt_succ_iff_lt_or_eq.mp hi with hi | hi
          · exact le_of_lt (lt_of_le_of_lt (hle i hi) hn)
          · exact hi ▸ le_refl _
        · intro i hi
          exact lt_of_le_of_lt (hle i hi) hn
      · rw [if_neg hn]
        refine Or.inl ⟨rfl, fun i hi => ?_⟩
        rcases Nat.lt_succ_iff_lt_or_eq.mp hi with hi | hi
        · exact hle i hi
        · exact hi ▸ le_of_not_lt hn
    · by_cases hn : acc.2 < rowScore (sample.getD n [])
      · rw [if_pos hn]
        refine Or.inr ⟨Nat.lt_succ_self n, lt_trans hpos hn, rfl, ?_, ?_⟩
        · intro i hi
          rcases Nat.lt_succ_iff_lt_or_eq.mp hi with hi | hi
          · exact le_of_lt (lt_of_le_of_lt (hmax i hi) hn)
          · exact hi ▸ le_refl _
        · intro i hi
          exact lt_of_le_of_lt (hmax i hi) hn
      · rw [if_neg hn]
        refine Or.inr ⟨Nat.lt_succ_of_lt hlt, hpos, hsc, ?_, hmin⟩
        intro i hi
        rcases Nat.lt_succ_iff_lt_or_eq.mp hi with hi | hi
        · exact hmax i hi
        · exact hi ▸ le_of_not_lt hn

/-- C1: `detect_header_row` scores each scanned row by the fill/text/keyword
/distinctness formula and returns the earliest row attaining the maximum
score when that maximum is strictly positive, and row 0 when no scanned row
scores above 0. -/
theorem findHeaderRow_earliest_max (sample : List (List Cell)) (maxRows : Nat) :
    (findHeaderRow sample maxRows = 0 ∧
      ∀ i < min maxRows sample.length, rowScoreSpec (sample.getD i []) ≤ 0) ∨
    (findHeaderRow sample maxRows < min maxRows sample.length ∧
      0 < rowScoreSpec (sample.getD (findHeaderRow sample maxRows) []) ∧
      (∀ i < min maxRows sample.length,
        rowScoreSpec (sample.getD i []) ≤
          rowScoreSpec (sample.getD (findHeaderRow sample maxRows) [])) ∧
      ∀ i < findHeaderRow sample maxRows,
        rowScoreSpec (sample.getD i []) <
          rowScoreSpec (sample.getD (findHeaderRow sample maxRows) [])) := by
  have h := headerFold_invariant sample (min maxRows sample.length)
  simp only [rowScoreSpec_eq]
  set acc := (List.range (min maxRows sample.length)).foldl
       (fun (acc : Nat × ℚ) idx =>
         let score := rowScore (sample.getD idx [])
         if acc.2 < score then (idx, score) else acc) (0, 0) with hacc
  have hfhr : findHeaderRow sample maxRows = acc.1 := rfl
  rw [hfhr]
  rcases h with ⟨h0, hle⟩ | ⟨hlt, hpos, hsc, hmax, hmin⟩
  · exact Or.inl ⟨by rw [h0], hle⟩
  · refine Or.inr ⟨hlt, ?_, ?_, ?_⟩
    · rw [hsc]; exact hpos
    · intro i hi; rw [hsc]; exact hmax i hi
    · intro i hi; rw [hsc]; exact hmin i hi

/-- C3: `detect_header_row` is total: it always returns an index that is 0
or lies within the scanned range, it returns 0 whenever no scanned row
scores above the baseline 0 (e.g. on an all-empty sample), and on any
one-row grid it returns 0. -/
theorem findHeaderRow_total (sample : List (List Cell)) (maxRows : Nat) :
    (findHeaderRow sample maxRows = 0 ∨
      findHeaderRow sample maxRows < min maxRows sample.length) ∧
    ((∀ i < min maxRows sample.length, rowScoreSpec (sample.getD i []) ≤ 0) →
      findHeaderRow sample maxRows = 0) ∧
    (sample.length = 1 → findHeaderRow sample maxRows = 0) := by
  have h := headerFold_invariant sample (min maxRows sample.length)
  set acc := (List.range (min maxRows sample.length)).foldl
       (fun (acc : Nat × ℚ) idx =>
         let score := rowScore (sample.getD idx [])
         if acc.2 < score then (idx, score) else acc) (0, 0) with hacc
  have hfhr : findHeaderRow sample maxRows = acc.1 := rfl
  rw [hfhr]
  rcases h with ⟨h0, hle⟩ | ⟨hlt, hpos, hsc, hmax, hmin⟩
  · rw [h0]
    exact ⟨Or.inl rfl, fun _ => rfl, fun _ => rfl⟩
  · refine ⟨Or.inr hlt, ?_, ?_⟩
    · intro hall
      have h1 := hall acc.1 hlt
      rw [rowScoreSpec_eq, hsc] at h1
      exact absurd hpos (not_lt_of_le h1)
    · intro h1
      have h2 : min maxRows sample.length ≤ 1 := by
        rw [h1]; exact Nat.min_le_right maxRows 1
      omega

/-- Closed witness for `findHeaderRow_total`: the pathological all-empty
one-row sample, where the default index 0 is returned. -/
theorem findHeaderRow_total_witness : findHeaderRow [[Cell.empty]] 20 = 0 :=
  (findHeaderRow_total [[Cell.empty]] 20).2.2 rfl

/-- Text cells are non-empty. -/
theorem Cell.filled_of_isText {c : Cell} (h : Cell.isText c = true) :
    Cell.filled c = true := by
  cases c <;> simp_all [Cell.isText, Cell.filled]

/-- No keyword is a substring of the empty concatenation. -/
theorem countKeywords_nil : countKeywords [] = 0 := by decide

/-- A row with no non-empty cell scores exactly 0. -/
theorem rowScore_all_empty (row : List Cell)
    (h : ∀ c ∈ row, Cell.filled c = false) : rowScore row = 0 := by
  have hf : row.filter Cell.filled = [] :=
    List.filter_eq_nil_iff.mpr (fun a ha => by simp [h a ha])
  have ht : row.filter Cell.isText = [] :=
    List.filter_eq_nil_iff.mpr (fun a ha hT => by
      have := Cell.filled_of_isText hT
      rw [h a ha] at this
      exact Bool.false_ne_true this)
  have hany : row.any Cell.filled = false := by
    simp only [List.any_eq_false]
    intro a ha
    simp [h a ha]
  have hu : distinctCount row = 0 := by
    rw [distinctCount, hf]
    rfl
  rw [rowScore]
  simp only [hf, ht, hany, hu, Bool.false_eq_true, if_false]
  norm_num

/-- A single-repeated-value row whose rendered concatenation matches at most
2 keywords scores at most 160 = 100 + 50 + 2·30 − 50. -/
theorem rowScore_repeated_le (row : List Cell)
    (h1 : distinctCount row = 1) (h2 : countKeywords (rowText row) ≤ 2) :
    rowScore row ≤ 160 := by
  have hne : row ≠ [] := by
    intro h
    rw [h] at h1
    simp [distinctCount] at h1
  have hn : (0 : ℚ) < row.length := by
    have := List.length_pos.mpr hne
    exact_mod_cast this
  have hfle : ((row.filter Cell.filled).length : ℚ) / row.length ≤ 1 := by
    rw [div_le_one hn]
    exact_mod_cast List.length_filter_le _ _
  have htle : ((row.filter Cell.isText).length : ℚ) / row.length ≤ 1 := by
    rw [div_le_one hn]
    exact_mod_cast List.length_filter_le _ _
  have hkw : ((countKeywords (rowText row) : ℚ)) ≤ 2 := by exact_mod_cast h2
  have h3 : ¬ distinctCount row > 3 := by omega
  rw [rowScore]
  simp only [h1]
  norm_num
  by_cases hany : ∃ x ∈ row, Cell.filled x = true
  · rw [if_pos hany]
    linarith
  · rw [if_neg hany]
    linarith

/-- A row of entirely non-empty text cells whose concatenation matches at
least 3 keywords scores at least 190 = 100 + 50 + 3·30 − 50. -/
theorem rowScore_header_ge (row : List Cell)
    (h1 : ∀ c ∈ row, Cell.filled c = true ∧ Cell.isText c = true)
    (h2 : 3 ≤ countKeywords (rowText row)) : 190 ≤ rowScore row := by
  have hne : row ≠ [] := by
    intro h
    rw [h] at h2
    rw [rowText] at h2
    simp only [List.filter_nil, List.map_nil] at h2
    rw [show joinSpace [] = [] from rfl, countKeywords_nil] at h2
    omega
  have hn : (0 : ℚ) < row.length := by
    have := List.length_pos.mpr hne
    exact_mod_cast this
  have hf : row.filter Cell.filled = row :=
    List.filter_eq_self.mpr (fun a ha => (h1 a ha).1)
  have ht : row.filter Cell.isText = row :=
    List.filter_eq_self.mpr (fun a ha => (h1 a ha).2)
  have hany : row.any Cell.filled = true := by
    rcases List.exists_mem_of_ne_nil row hne with ⟨a, ha⟩
    exact List.any_eq_true.mpr ⟨a, ha, (h1 a ha).1⟩
  have hdiv : (row.length : ℚ) / row.length = 1 := div_self (ne_of_gt hn)
  have hkw : (3 : ℚ) ≤ (countKeywords (rowText row) : ℚ) := by exact_mod_cast h2
  rw [rowScore]
  simp only [hf, ht, hany, if_true, hdiv]
  split_ifs <;> linarith

/-- C2 (amended): if row `k` of a rectangular grid lies in the scanned range
and consists entirely of non-empty, pairwise-distinct text values whose
concatenation matches at least 3 keywords, and every other row is either
entirely empty or a single repeated value whose concatenation matches at
most 2 keywords, then `detect_header_row` returns `k`. -/
theorem findHeaderRow_header_detected (g : List (List Cell)) (k w maxRows : Nat)
    (hw : ∀ row ∈ g, row.length = w)
    (hk : k < min maxRows g.length)
    (hrow : ∀ c ∈ g.getD k [], Cell.filled c = true ∧ Cell.isText c = true)
    (hdist : distinctCount (g.getD k []) = (g.getD k []).length)
    (hkw : 3 ≤ countKeywords (rowText (g.getD k [])))
    (hothers : ∀ i < g.length, i ≠ k →
      (∀ c ∈ g.getD i [], Cell.filled c = false) ∨
      (distinctCount (g.getD i []) = 1 ∧
        countKeywords (rowText (g.getD i [])) ≤ 2)) :
    findHeaderRow g maxRows = k := by
  have hheader : (190 : ℚ) ≤ rowScore (g.getD k []) := rowScore_header_ge _ hrow hkw
  have hother : ∀ i < g.length, i ≠ k → rowScore (g.getD i []) ≤ 160 := by
    intro i hi hik
    rcases hothers i hi hik with h | ⟨h1, h2⟩
    · rw [rowScore_all_empty _ h]
      norm_num
    · exact rowScore_repeated_le _ h1 h2
  have h := headerFold_invariant g (min maxRows g.length)
  set acc := (List.range (min maxRows g.length)).foldl
       (fun (acc : Nat × ℚ) idx =>
         let score := rowScore (g.getD idx [])
         if acc.2 < score then (idx, score) else acc) (0, 0) with hacc
  have hfhr : findHeaderRow g maxRows = acc.1 := rfl
  rw [hfhr]
  rcases h with ⟨h0, hle⟩ | ⟨hlt, hpos, hsc, hmax, hmin⟩
  · have := hle k hk
    linarith
  · by_contra hne
    have hi : acc.1 < g.length := lt_of_lt_of_le hlt (Nat.min_le_right _ _)
    have h1 : rowScore (g.getD acc.1 []) ≤ 160 := hother acc.1 hi hne
    have h2 : rowScore (g.getD k []) ≤ acc.2 := hmax k hk
    rw [← hsc] at h2
    linarith

/-- Closed witness for `findHeaderRow_header_detected`: a title banner above
a keyword-free header row; detection picks the header row 1. -/
theorem findHeaderRow_header_detected_witness :
    findHeaderRow [[Cell.text "x", Cell.text "x"],
                   [Cell.text "project", Cell.text "name date"]] 20 = 1 := by
  refine findHeaderRow_header_detected _ 1 2 20 ?_ ?_ ?_ ?_ ?_ ?_ <;>
    with_unfolding_all decide

/-- C2 counterexample: row 1 is all non-empty, pairwise-distinct text whose
concatenation matches 3 keywords (scoring 240), and row 0 is a single
repeated value — but the repeated value matches 5 keywords, so row 0 scores
250 and detection returns 0 instead of 1. -/
theorem findHeaderRow_keyword_title_counterexample :
    (∀ c ∈ ([Cell.text "project", Cell.text "name date"] : List Cell),
      Cell.filled c = true ∧ Cell.isText c = true) ∧
    distinctCount [Cell.text "project", Cell.text "name date"] = 2 ∧
    3 ≤ countKeywords (rowText [Cell.text "project", Cell.text "name date"]) ∧
    distinctCount [Cell.text "project name date status id",
        Cell.text "project name date status id"] = 1 ∧
    findHeaderRow
      [[Cell.text "project name date status id",
        Cell.text "project name date status id"],
       [Cell.text "project", Cell.text "name date"]] 20 = 0 := by
  with_unfolding_all decide

/-! ### Lemmas: name matcher -/

/-- C7: `names_match` holds exactly when the two names normalize to the same
string; in particular "Sauer, Shaun" matches "shaun   sauer" while
"Shaun Sauer" does not match "Shaun A. Sauer". -/
theorem namesMatch_iff_normalized_eq :
    (∀ a b : String, namesMatch a b = true ↔ normalizeName a = normalizeName b) ∧
    namesMatch "Sauer, Shaun" "shaun   sauer" = true ∧
    namesMatch "Shaun Sauer" "Shaun A. Sauer" = false := by
  refine ⟨fun a b => ?_, ?_, ?_⟩
  · simp [namesMatch]
  · with_unfolding_all decide
  · with_unfolding_all decide

/-- `(Char.ofNat m).toNat = m` on the lower-case ASCII range. -/
theorem charOfNat_toNat (m : Nat) (h1 : 97 ≤ m) (h2 : m ≤ 122) :
    (Char.ofNat m).toNat = m := by
  interval_cases m <;> rfl

/-- The character-level lowering map is idempotent. -/
theorem lowerChar_idem (c : Char) : lowerChar (lowerChar c) = lowerChar c := by
  unfold lowerChar
  by_cases h : 65 ≤ c.toNat ∧ c.toNat ≤ 90
  · rw [if_pos h, charOfNat_toNat (c.toNat + 32) (by omega) (by omega)]
    rw [if_neg (by omega)]
  · rw [if_neg h, if_neg h]

/-- A space is already lower case. -/
theorem lowerChar_space : lowerChar ' ' = ' ' := rfl

/-- Unfolding equation of `tokenize` at the empty list. -/
theorem tokenize_nil : tokenize [] = [] := by
  rw [tokenize]

/-- Unfolding equation of `tokenize` at a delimiter. -/
theorem tokenize_cons_delim (c : Char) (rest : List Char) (h : isDelim c = true) :
    tokenize (c :: rest) = tokenize rest := by
  rw [tokenize]
  simp [h]

/-- Unfolding equation of `tokenize` at a non-delimiter. -/
theorem tokenize_cons_nondelim (c : Char) (rest : List Char)
    (h : ¬ isDelim c = true) :
    tokenize (c :: rest) = (c :: rest.takeWhile (fun d => !isDelim d)) ::
      tokenize (rest.dropWhile (fun d => !isDelim d)) := by
  rw [tokenize]
  simp [h]

/-- Every character of every token of `tokenize cs` occurs in `cs`. -/
theorem tokenize_subset (cs : List Char) :
    ∀ t ∈ tokenize cs, ∀ c ∈ t, c ∈ cs := by
  induction cs using tokenize.induct with
  | case1 => intro t ht; simp [tokenize] at ht
  | case2 c rest h ih =>
    rw [tokenize_cons_delim c rest h]
    intro t ht d hd
    exact List.mem_cons_of_mem c (ih t ht d hd)
  | case3 c rest h ih =>
    rw [tokenize_cons_nondelim c rest h]
    intro t ht d hd
    rcases List.mem_cons.mp ht with rfl | ht
    · rcases List.mem_cons.mp hd with rfl | hd
      · exact List.mem_cons_self _ _
      · exact List.mem_cons_of_mem c (List.takeWhile_subset _ hd)
    · exact List.mem_cons_of_mem c (List.dropWhile_subset _ (ih t ht d hd))

/-- Members of `takeWhile p` satisfy `p`. -/
theorem mem_takeWhile_sat {p : Char → Bool} :
    ∀ {l : List Char} {c : Char}, c ∈ l.takeWhile p → p c = true := by
  intro l
  induction l with
  | nil => intro c hc; simp at hc
  | cons a as ih =>
    intro c hc
    rw [List.takeWhile_cons] at hc
    by_cases ha : p a
    · rw [if_pos ha] at hc
      rcases List.mem_cons.mp hc with rfl | hc
      · exact ha
      · exact ih hc
    · rw [if_neg ha] at hc
      simp at hc

/-- Every token of `tokenize cs` is non-empty and free of delimiters. -/
theorem tokenize_sound (cs : List Char) :
    ∀ t ∈ tokenize cs, t ≠ [] ∧ ∀ c ∈ t, isDelim c = false := by
  induction cs using tokenize.induct with
  | case1 => intro t ht; simp [tokenize] at ht
  | case2 c rest h ih =>
    rw [tokenize_cons_delim c rest h]
    exact ih
  | case3 c rest h ih =>
    rw [tokenize_cons_nondelim c rest h]
    intro t ht
    rcases List.mem_cons.mp ht with rfl | ht
    · refine ⟨List.cons_ne_nil _ _, fun d hd => ?_⟩
      rcases List.mem_cons.mp hd with rfl | hd
      · exact Bool.not_eq_true _ ▸ Bool.of_not_eq_true h
      · have := mem_takeWhile_sat hd
        simpa using this
    · exact ih t ht

/-- `takeWhile`/`dropWhile` on an all-satisfying list. -/
theorem takeWhile_all {p : Char → Bool} :
    ∀ (l : List Char), (∀ c ∈ l, p c = true) →
      l.takeWhile p = l ∧ l.dropWhile p = [] := by
  intro l
  induction l with
  | nil => intro _; exact ⟨rfl, rfl⟩
  | cons a as ih =>
    intro h
    have ha : p a = true := h a (List.mem_cons_self a as)
    have has := ih (fun c hc => h c (List.mem_cons_of_mem a hc))
    rw [List.takeWhile_cons, List.dropWhile_cons]
    rw [if_pos ha, if_pos ha, has.1, has.2]
    exact ⟨rfl, rfl⟩

/-- `takeWhile`/`dropWhile` on a satisfying block followed by a failing
element. -/
theorem takeWhile_append_stop {p : Char → Bool} :
    ∀ (t : List Char) (x : Char) (r : List Char),
      (∀ c ∈ t, p c = true) → p x = false →
      (t ++ x :: r).takeWhile p = t ∧ (t ++ x :: r).dropWhile p = x :: r := by
  intro t
  induction t with
  | nil =>
    intro x r _ hx
    simp [List.takeWhile_cons, List.dropWhile_cons, hx]
  | cons a as ih =>
    intro x r h hx
    have ha : p a = true := h a (List.mem_cons_self a as)
    have has := ih x r (fun c hc => h c (List.mem_cons_of_mem a hc)) hx
    rw [List.cons_append, List.takeWhile_cons, List.dropWhile_cons,
      if_pos ha, if_pos ha, has.1, has.2]
    exact ⟨rfl, rfl⟩

/-- Characters of a joined token list are spaces or token characters. -/
theorem mem_joinSpace :
    ∀ (ts : List (List Char)) (c : Char), c ∈ joinSpace ts →
      c = ' ' ∨ ∃ t ∈ ts, c ∈ t := by
  intro ts
  induction ts with
  | nil => intro c hc; simp [joinSpace] at hc
  | cons t ts ih =>
    intro c hc
    cases ts with
    | nil =>
      rw [show joinSpace [t] = t from rfl] at hc
      exact Or.inr ⟨t, List.mem_cons_self t [], hc⟩
    | cons t₂ ts₂ =>
      rw [show joinSpace (t :: t₂ :: ts₂) = t ++ ' ' :: joinSpace (t₂ :: ts₂)
        from rfl] at hc
      rcases List.mem_append.mp hc with hc | hc
      · exact Or.inr ⟨t, List.mem_cons_self _ _, hc⟩
      · rcases List.mem_cons.mp hc with rfl | hc
        · exact Or.inl rfl
        · rcases ih c hc with h | ⟨u, hu, hcu⟩
          · exact Or.inl h
          · exact Or.inr ⟨u, List.mem_cons_of_mem t hu, hcu⟩

/-- `tokenize` is a left inverse of `joinSpace` on lists of non-empty,
delimiter-free tokens. -/
theorem tokenize_joinSpace :
    ∀ (ts : List (List Char)),
      (∀ t ∈ ts, t ≠ [] ∧ ∀ c ∈ t, isDelim c = false) →
      tokenize (joinSpace ts) = ts := by
  intro ts
  induction ts with
  | nil => intro _; exact tokenize_nil
  | cons t ts ih =>
    intro h
    obtain ⟨hne, hfree⟩ := h t (List.mem_cons_self t ts)
    obtain ⟨c, cs, rfl⟩ := List.exists_cons_of_ne_nil hne
    have hc : isDelim c = false := hfree c (List.mem_cons_self c cs)
    have hcs : ∀ d ∈ cs, (fun d => !isDelim d) d = true := fun d hd => by
      simp [hfree d (List.mem_cons_of_mem c hd)]
    cases ts with
    | nil =>
      rw [show joinSpace [c :: cs] = c :: cs from rfl]
      rw [tokenize_cons_nondelim c cs (by simp [hc])]
      rw [(takeWhile_all cs hcs).1, (takeWhile_all cs hcs).2, tokenize_nil]
    | cons t₂ ts₂ =>
      rw [show joinSpace ((c :: cs) :: t₂ :: ts₂) =
        (c :: cs) ++ ' ' :: joinSpace (t₂ :: ts₂) from rfl]
      rw [List.cons_append]
      rw [tokenize_cons_nondelim c (cs ++ ' ' :: joinSpace (t₂ :: ts₂))
        (by simp [hc])]
      have hstop := takeWhile_append_stop cs ' ' (joinSpace (t₂ :: ts₂)) hcs
        (by simp [isDelim])
      rw [hstop.1, hstop.2]
      rw [tokenize_cons_delim ' ' _ (by simp [isDelim])]
      rw [ih (fun u hu => h u (List.mem_cons_of_mem _ hu))]

/-- Unfolding of the lexicographic comparison at two cons cells. -/
theorem lexLe_cons (x y : Char) (xs ys : List Char) :
    lexLe (x :: xs) (y :: ys) = true ↔
      x < y ∨ (x = y ∧ lexLe xs ys = true) := by
  simp [lexLe, Bool.or_eq_true, Bool.and_eq_true, decide_eq_true_iff]

/-- `lexLe` is total. -/
theorem lexLe_total : ∀ a b : List Char, lexLe a b = true ∨ lexLe b a = true := by
  intro a
  induction a with
  | nil => intro b; exact Or.inl rfl
  | cons x xs ih =>
    intro b
    cases b with
    | nil => exact Or.inr rfl
    | cons y ys =>
      rcases lt_trichotomy x y with h | h | h
      · exact Or.inl ((lexLe_cons x y xs ys).mpr (Or.inl h))
      · rcases ih ys with h2 | h2
        · exact Or.inl ((lexLe_cons x y xs ys).mpr (Or.inr ⟨h, h2⟩))
        · exact Or.inr ((lexLe_cons y x ys xs).mpr (Or.inr ⟨h.symm, h2⟩))
      · exact Or.inr ((lexLe_cons y x ys xs).mpr (Or.inl h))

/-- `lexLe` is transitive. -/
theorem lexLe_trans :
    ∀ a b c : List Char, lexLe a b = true → lexLe b c = true →
      lexLe a c = true := by
  intro a
  induction a with
  | nil => intro b c _ _; rfl
  | cons x xs ih =>
    intro b c hab hbc
    cases b with
    | nil => simp [lexLe] at hab
    | cons y ys =>
      cases c with
      | nil => simp [lexLe] at hbc
      | cons z zs =>
        rcases (lexLe_cons x y xs ys).mp hab with h1 | ⟨h1, h1'⟩ <;>
          rcases (lexLe_cons y z ys zs).mp hbc with h2 | ⟨h2, h2'⟩
        · exact (lexLe_cons x z xs zs).mpr (Or.inl (lt_trans h1 h2))
        · exact (lexLe_cons x z xs zs).mpr (Or.inl (h2 ▸ h1))
        · exact (lexLe_cons x z xs zs).mpr (Or.inl (h1 ▸ h2))
        · exact (lexLe_cons x z xs zs).mpr (Or.inr ⟨h1.trans h2, ih ys zs h1' h2'⟩)

/-- Membership in an ordered insertion. -/
theorem mem_insertTok (t u : List Char) :
    ∀ l : List (List Char), (u ∈ insertTok t l ↔ u = t ∨ u ∈ l) := by
  intro l
  induction l with
  | nil => simp [insertTok]
  | cons v vs ih =>
    rw [insertTok]
    by_cases h : lexLe t v
    · rw [if_pos h]
      simp only [List.mem_cons]
    · rw [if_neg h]
      simp only [List.mem_cons, ih]
      tauto

/-- Membership in the insertion sort. -/
theorem mem_sortToks (u : List Char) :
    ∀ l : List (List Char), (u ∈ sortToks l ↔ u ∈ l) := by
  intro l
  induction l with
  | nil => simp [sortToks]
  | cons v vs ih =>
    rw [sortToks, mem_insertTok]
    simp only [List.mem_cons, ih]

/-- Ordered insertion preserves sortedness. -/
theorem insertTok_sorted (t : List Char) :
    ∀ l : List (List Char), l.Pairwise (fun a b => lexLe a b = true) →
      (insertTok t l).Pairwise (fun a b => lexLe a b = true) := by
  intro l
  induction l with
  | nil => intro _; simp [insertTok]
  | cons v vs ih =>
    intro h
    rw [List.pairwise_cons] at h
    rw [insertTok]
    by_cases hl : lexLe t v
    · rw [if_pos hl]
      refine List.pairwise_cons.mpr ⟨?_, List.pairwise_cons.mpr h⟩
      intro u hu
      rcases List.mem_cons.mp hu with rfl | hu
      · exact hl
      · exact lexLe_trans t v u hl (h.1 u hu)
    · rw [if_neg hl]
      refine List.pairwise_cons.mpr ⟨?_, ih h.2⟩
      intro u hu
      rcases (mem_insertTok t u vs).mp hu with rfl | hu
      · rcases lexLe_total u v with h2 | h2
        · exact absurd h2 hl
        · exact h2
      · exact h.1 u hu

/-- The insertion sort is sorted. -/
theorem sortToks_sorted :
    ∀ l : List (List Char),
      (sortToks l).Pairwise (fun a b => lexLe a b = true) := by
  intro l
  induction l with
  | nil => simp [sortToks]
  | cons v vs ih => exact insertTok_sorted v (sortToks vs) ih

/-- Sorting a sorted list is the identity. -/
theorem sortToks_of_sorted :
    ∀ l : List (List Char), l.Pairwise (fun a b => lexLe a b = true) →
      sortToks l = l := by
  intro l
  induction l with
  | nil => intro _; rfl
  | cons v vs ih =>
    intro h
    rw [List.pairwise_cons] at h
    rw [sortToks, ih h.2]
    cases vs with
    | nil => rfl
    | cons w ws =>
      rw [insertTok, if_pos (h.1 w (List.mem_cons_self w ws))]

/-- C8: `normalize_name` is idempotent — normalizing an already-normalized
name returns it unchanged. -/
theorem normalizeName_idem (s : String) :
    normalizeName (normalizeName s) = normalizeName s := by
  unfold normalizeName
  set T := sortToks (tokenize (s.data.map lowerChar)) with hT
  have hTmem : ∀ t ∈ T, ∀ c ∈ t, c ∈ s.data.map lowerChar := by
    intro t ht c hc
    exact tokenize_subset _ t ((mem_sortToks t _).mp (hT ▸ ht)) c hc
  have hfix : ∀ c ∈ joinSpace T, lowerChar c = c := by
    intro c hc
    rcases mem_joinSpace T c hc with rfl | ⟨t, ht, hct⟩
    · exact lowerChar_space
    · rcases List.mem_map.mp (hTmem t ht c hct) with ⟨d, _, rfl⟩
      exact lowerChar_idem d
  have hmap : (joinSpace T).map lowerChar = joinSpace T :=
    (List.map_congr_left (fun a ha => hfix a ha)).trans (List.map_id' _)
  have hsound : ∀ t ∈ T, t ≠ [] ∧ ∀ c ∈ t, isDelim c = false := by
    intro t ht
    exact tokenize_sound _ t ((mem_sortToks t _).mp (hT ▸ ht))
  have hsorted : T.Pairwise (fun a b => lexLe a b = true) := by
    rw [hT]
    exact sortToks_sorted _
  congr 1
  rw [show (String.mk (joinSpace T)).data = joinSpace T from rfl]
  rw [hmap, tokenize_joinSpace T hsound, sortToks_of_sorted T hsorted]

/-! ### Lemmas: table normalizer -/

/-- `cellAt` within bounds. -/
theorem cellAt_lt (r : List Cell) (j : Nat) (h : j < r.length) :
    cellAt r j = r[j] := by
  rw [cellAt, List.getD_eq_getElem?_getD, List.getElem?_eq_getElem h]
  rfl

/-- `cellAt` beyond the row is the empty padding. -/
theorem cellAt_ge (r : List Cell) (j : Nat) (h : r.length ≤ j) :
    cellAt r j = Cell.empty := by
  rw [cellAt, List.getD_eq_getElem?_getD, List.getElem?_eq_none h]
  rfl

/-- Rows of `gridData` have the header row's width. -/
theorem gridData_length (g : List (List Cell)) (hr : Nat) (r : List Cell)
    (h : r ∈ gridData g hr) : r.length = (g.getD hr []).length := by
  rw [gridData] at h
  rcases List.mem_map.mp h with ⟨r₀, _, rfl⟩
  simp

/-- A data row survives the projection to the kept columns iff it has a
non-empty cell: dropped columns are entirely empty, so they never carry a
row's only witness. -/
theorem projRow_any_filled (g : List (List Cell)) (hr : Nat) (r : List Cell)
    (hrd : r ∈ gridData g hr) :
    ((keptIndices g hr).map (cellAt r)).any Cell.filled = r.any Cell.filled := by
  rw [Bool.eq_iff_iff, List.any_eq_true, List.any_eq_true]
  constructor
  · rintro ⟨c, hc, hf⟩
    rcases List.mem_map.mp hc with ⟨j, _, rfl⟩
    by_cases hlt : j < r.length
    · rw [cellAt_lt r j hlt] at hf
      exact ⟨r[j], List.getElem_mem hlt, hf⟩
    · rw [cellAt_ge r j (Nat.le_of_not_lt hlt)] at hf
      exact absurd hf (by simp [Cell.filled])
  · rintro ⟨c, hc, hf⟩
    rcases List.mem_iff_getElem.mp hc with ⟨j, hj, rfl⟩
    have hjw : j < (g.getD hr []).length := by
      rw [← gridData_length g hr r hrd]
      exact hj
    have hcell : cellAt r j = r[j] := cellAt_lt r j hj
    refine ⟨cellAt r j, List.mem_map.mpr ⟨j, ?_, rfl⟩, by rw [hcell]; exact hf⟩
    rw [keptIndices, List.mem_filter]
    refine ⟨List.mem_range.mpr hjw, ?_⟩
    have hall : (gridData g hr).all (fun r' => !(cellAt r' j).filled) = false := by
      rw [List.all_eq_false]
      exact ⟨r, hrd, by rw [hcell]; simp [hf]⟩
    rw [hall]
    simp

/-- Success branch of `normalizeTable`, spelled out. -/
theorem normalizeTable_eq_some {g : List (List Cell)} {hr : Nat} {t : Table}
    (h : normalizeTable g hr = some t) :
    t.cols = (keptIndices g hr).map
        (fun j => (headerNames (g.getD hr [])).getD j "") ∧
    t.rows = ((gridData g hr).map
        (fun r => (keptIndices g hr).map (cellAt r))).filter
        (fun r => r.any Cell.filled) := by
  simp only [normalizeTable] at h
  split_ifs at h with h1 h2
  cases Option.some.inj h
  exact ⟨rfl, rfl⟩

/-- C4: during normalization a column is dropped iff its cleaned name
contains the synthetic `Unnamed` marker and all of its data cells are
empty; in particular a grid whose header row 2 is `["A", "B", "Unnamed: 2"]`
with the third column empty in all data rows normalizes to exactly the
columns `["A", "B"]`. -/
theorem normalizeTable_drop_iff :
    (∀ (g : List (List Cell)) (hr : Nat) (t : Table),
      normalizeTable g hr = some t →
      (∀ j < (g.getD hr []).length,
        (j ∈ keptIndices g hr ↔
          ¬(hasUnnamed ((headerNames (g.getD hr [])).getD j "") = true ∧
            ∀ r ∈ gridData g hr, (cellAt r j).filled = false))) ∧
      t.cols = (keptIndices g hr).map
        (fun j => (headerNames (g.getD hr [])).getD j "")) ∧
    normalizeTable [[Cell.empty, Cell.empty, Cell.empty],
        [Cell.text "T", Cell.empty, Cell.empty],
        [Cell.text "A", Cell.text "B", Cell.text "Unnamed: 2"],
        [Cell.text "x", Cell.text "y", Cell.empty],
        [Cell.text "z", Cell.text "w", Cell.empty]] 2 =
      some ⟨["A", "B"],
            [[Cell.text "x", Cell.text "y"], [Cell.text "z", Cell.text "w"]]⟩ := by
  constructor
  · intro g hr t h
    refine ⟨fun j hj => ?_, (normalizeTable_eq_some h).1⟩
    rw [keptIndices, List.mem_filter]
    simp only [List.mem_range, hj, true_and, Bool.not_eq_true',
      Bool.and_eq_false_iff, List.all_eq_false]
    constructor
    · rintro (h1 | h1)
      · rintro ⟨h2, _⟩
        rw [h1] at h2
        exact Bool.false_ne_true h2
      · rintro ⟨_, h2⟩
        rcases h1 with ⟨r, hrd, hrf⟩
        rw [h2 r hrd] at hrf
        simp at hrf
    · intro h1
      by_cases h2 : hasUnnamed ((headerNames (g.getD hr [])).getD j "") = true
      · right
        by_contra h3
        push_neg at h3
        refine h1 ⟨h2, fun r hrd => ?_⟩
        exact h3 r hrd
      · exact Or.inl (by simpa using h2)
  · with_unfolding_all decide

/-- Closed witness for `normalizeTable_drop_iff`: in the concrete grid of
the claim, column 2 (`"Unnamed: 2"`, everywhere empty) is not kept, and the
resulting columns are the kept names. -/
theorem normalizeTable_drop_iff_witness :
    (¬ 2 ∈ keptIndices [[Cell.empty, Cell.empty, Cell.empty],
        [Cell.text "T", Cell.empty, Cell.empty],
        [Cell.text "A", Cell.text "B", Cell.text "Unnamed: 2"],
        [Cell.text "x", Cell.text "y", Cell.empty],
        [Cell.text "z", Cell.text "w", Cell.empty]] 2) ∧
    (Table.mk ["A", "B"]
        [[Cell.text "x", Cell.text "y"], [Cell.text "z", Cell.text "w"]]).cols =
      (keptIndices [[Cell.empty, Cell.empty, Cell.empty],
        [Cell.text "T", Cell.empty, Cell.empty],
        [Cell.text "A", Cell.text "B", Cell.text "Unnamed: 2"],
        [Cell.text "x", Cell.text "y", Cell.empty],
        [Cell.text "z", Cell.text "w", Cell.empty]] 2).map
        (fun j => (headerNames ([[Cell.empty, Cell.empty, Cell.empty],
          [Cell.text "T", Cell.empty, Cell.empty],
          [Cell.text "A", Cell.text "B", Cell.text "Unnamed: 2"],
          [Cell.text "x", Cell.text "y", Cell.empty],
          [Cell.text "z", Cell.text "w", Cell.empty]].getD 2 [])).getD j "") := by
  have h := normalizeTable_drop_iff.1
    [[Cell.empty, Cell.empty, Cell.empty],
     [Cell.text "T", Cell.empty, Cell.empty],
     [Cell.text "A", Cell.text "B", Cell.text "Unnamed: 2"],
     [Cell.text "x", Cell.text "y", Cell.empty],
     [Cell.text "z", Cell.text "w", Cell.empty]] 2
    ⟨["A", "B"], [[Cell.text "x", Cell.text "y"], [Cell.text "z", Cell.text "w"]]⟩
    (by with_unfolding_all decide)
  refine ⟨fun hmem => ?_, h.2⟩
  have h2 := (h.1 2 (by with_unfolding_all decide)).mp hmem
  exact h2 (by with_unfolding_all decide)

/-- C5 (amended): for grids whose cleaned header names contain no duplicated
`Unnamed`-marked name, normalization fails exactly when the header row is
out of bounds; dropping every column yields an empty table, not an error. -/
theorem normalizeTable_some_iff (g : List (List Cell)) (hr : Nat)
    (hnodup : (headerNames (g.getD hr [])).any
        (fun s => hasUnnamed s &&
          1 < (headerNames (g.getD hr [])).count s) = false) :
    ((normalizeTable g hr).isSome = true ↔ hr < g.length) := by
  rw [normalizeTable]
  by_cases h1 : hr < g.length
  · rw [if_pos h1]
    simp only [h1, iff_true]
    rw [if_neg (by rw [hnodup]; exact Bool.false_ne_true)]
    rfl
  · rw [if_neg h1]
    simp [h1]

/-- Closed witness for `normalizeTable_some_iff`: a one-column grid with an
in-range header row normalizes successfully. -/
theorem normalizeTable_some_iff_witness :
    (normalizeTable [[Cell.text "A"], [Cell.text "x"]] 0).isSome = true :=
  (normalizeTable_some_iff [[Cell.text "A"], [Cell.text "x"]] 0
    (by with_unfolding_all decide)).mpr (by decide)

/-- C5 counterexample: a grid whose columns are all empty `Unnamed`
placeholders normalizes to the zero-column empty table — the claimed
`MalformedTableError` on zero remaining columns does not occur. -/
theorem normalizeTable_zero_columns_counterexample :
    normalizeTable [[Cell.empty, Cell.empty], [Cell.empty, Cell.empty]] 0 =
      some ⟨[], []⟩ ∧
    (Table.mk ([] : List String) ([] : List (List Cell))).cols.length = 0 := by
  constructor
  · with_unfolding_all decide
  · rfl

/-- C6 (amended): every table produced by normalization contains no
entirely-empty row — its rows are exactly the data rows that carry at least
one non-empty cell, re-indexed contiguously — so a grid with exactly one
completely empty data row loses exactly that row; column names, however,
can come out empty or duplicated after trimming. -/
theorem normalizeTable_rows_nonempty :
    (∀ (g : List (List Cell)) (hr : Nat) (t : Table),
      normalizeTable g hr = some t →
      (∀ r ∈ t.rows, ∃ c ∈ r, Cell.filled c = true) ∧
      t.rows.length = (gridData g hr).countP (fun r => r.any Cell.filled)) ∧
    normalizeTable [[Cell.text "A"], [Cell.text "x"], [Cell.empty],
        [Cell.text "y"]] 0 =
      some ⟨["A"], [[Cell.text "x"], [Cell.text "y"]]⟩ := by
  constructor
  · intro g hr t h
    have hrows := (normalizeTable_eq_some h).2
    constructor
    · intro r hr'
      rw [hrows] at hr'
      have := (List.mem_filter.mp hr').2
      exact List.any_eq_true.mp this
    · rw [hrows, List.filter_map, List.length_map, List.countP_eq_length_filter]
      congr 1
      refine List.filter_congr (fun r hrd => ?_)
      exact projRow_any_filled g hr r hrd
  · with_unfolding_all decide

/-- Closed witness for `normalizeTable_rows_nonempty`: the concrete grid of
the claim has 3 data rows, one entirely empty, and the result keeps 2. -/
theorem normalizeTable_rows_nonempty_witness :
    (Table.mk ["A"] [[Cell.text "x"], [Cell.text "y"]]).rows.length =
      (gridData [[Cell.text "A"], [Cell.text "x"], [Cell.empty],
        [Cell.text "y"]] 0).countP (fun r => r.any Cell.filled) :=
  (normalizeTable_rows_nonempty.1
    [[Cell.text "A"], [Cell.text "x"], [Cell.empty], [Cell.text "y"]] 0
    ⟨["A"], [[Cell.text "x"], [Cell.text "y"]]⟩
    (by with_unfolding_all decide)).2

/-- C6 counterexample: header cells `"A"`, `"A "` and `"  "` survive
normalization as the column names `"A"`, `"A"`, `""` — whitespace trimming
creates a duplicate and an empty name, violating the claimed invariant. -/
theorem normalizeTable_duplicate_names_counterexample :
    normalizeTable [[Cell.text "A", Cell.text "A ", Cell.text "  "],
        [Cell.text "x", Cell.text "y", Cell.text "z"]] 0 =
      some ⟨["A", "A", ""],
            [[Cell.text "x", Cell.text "y", Cell.text "z"]]⟩ ∧
    ¬ (["A", "A", ""] : List String).Nodup ∧
    ("" : String) ∈ (["A", "A", ""] : List String) := by
  refine ⟨by with_unfolding_all decide, by decide, by decide⟩

/-! ### Lemmas: report catalog -/

/-- The catalog loop accumulates exactly the successfully loaded reports,
in order. -/
theorem loadFold_eq (sources : List (String × Option (List (List Cell)))) :
    ∀ init : List (String × Table),
      sources.foldl (fun acc kv => match loadSingleReport kv.2 with
        | some t => acc ++ [(kv.1, t)] | none => acc) init =
      init ++ sources.filterMap
        (fun kv => (loadSingleReport kv.2).map (fun t => (kv.1, t))) := by
  induction sources with
  | nil => intro init; simp
  | cons kv rest ih =>
    intro init
    rw [List.foldl_cons, List.filterMap_cons]
    cases h : loadSingleReport kv.2 with
    | none => simp only [h, Option.map_none']; rw [ih]
    | some t =>
      simp only [h, Option.map_some']
      rw [ih]
      simp

/-- The reports mapping of a catalog pass. -/
theorem loadAllReports_reports
    (sources : List (String × Option (List (List Cell)))) :
    (loadAllReports sources).reports =
      sources.filterMap
        (fun kv => (loadSingleReport kv.2).map (fun t => (kv.1, t))) := by
  rw [loadAllReports]
  exact loadFold_eq sources []

/-- An association list lookup succeeds exactly on its keys. -/
theorem lookup_isSome_iff (l : List (String × Table)) (k : String) :
    ((l.lookup k).isSome = true) ↔ k ∈ l.map Prod.fst := by
  induction l with
  | nil => simp [List.lookup]
  | cons p rest ih =>
    rw [List.lookup]
    by_cases h : k == p.1
    · rw [h]
      simp only [Option.isSome_some, List.map_cons, List.mem_cons, true_iff]
      exact Or.inl (by simpa using h)
    · rw [Bool.not_eq_true] at h
      rw [h]
      simp only [ih, List.map_cons, List.mem_cons]
      have : ¬ k = p.1 := by simpa using h
      tauto

/-- The number of successful loads. -/
theorem loadAll_length_eq_countP
    (sources : List (String × Option (List (List Cell)))) :
    (sources.filterMap
      (fun kv => (loadSingleReport kv.2).map (fun t => (kv.1, t)))).length =
    sources.countP (fun kv => (loadSingleReport kv.2).isSome) := by
  induction sources with
  | nil => rfl
  | cons kv rest ih =>
    rw [List.filterMap_cons, List.countP_cons]
    cases h : loadSingleReport kv.2 with
    | none => simp [h, ih]
    | some t => simp [h, ih]

/-- C9: a failed report leaves exactly its own key absent from the catalog
without aborting the batch — a key resolves iff its configured source
loaded — and the reported counts are `succeeded` = number of mapping
entries and `attempted` = number of configured reports; a 4-report batch
with one missing source yields 3 entries, attempted 4, succeeded 3. -/
theorem loadAllReports_partial_failure :
    (∀ (sources : List (String × Option (List (List Cell)))),
      (∀ k : String,
        (((loadAllReports sources).reports.lookup k).isSome = true ↔
          ∃ src, (k, src) ∈ sources ∧ (loadSingleReport src).isSome = true)) ∧
      (loadAllReports sources).succeeded =
        sources.countP (fun kv => (loadSingleReport kv.2).isSome) ∧
      (loadAllReports sources).attempted = sources.length) ∧
    ((loadAllReports
        [("Cost Estimating", some [[Cell.text "project"], [Cell.text "x"]]),
         ("Milestone Schedule", none),
         ("Contract Schedule", some [[Cell.text "project"], [Cell.text "x"]]),
         ("Order Data", some [[Cell.text "project"], [Cell.text "x"]])]).reports.length
        = 3 ∧
     (loadAllReports
        [("Cost Estimating", some [[Cell.text "project"], [Cell.text "x"]]),
         ("Milestone Schedule", none),
         ("Contract Schedule", some [[Cell.text "project"], [Cell.text "x"]]),
         ("Order Data", some [[Cell.text "project"], [Cell.text "x"]])]).attempted
        = 4 ∧
     (loadAllReports
        [("Cost Estimating", some [[Cell.text "project"], [Cell.text "x"]]),
         ("Milestone Schedule", none),
         ("Contract Schedule", some [[Cell.text "project"], [Cell.text "x"]]),
         ("Order Data", some [[Cell.text "project"], [Cell.text "x"]])]).succeeded
        = 3 ∧
     (loadAllReports
        [("Cost Estimating", some [[Cell.text "project"], [Cell.text "x"]]),
         ("Milestone Schedule", none),
         ("Contract Schedule", some [[Cell.text "project"], [Cell.text "x"]]),
         ("Order Data", some [[Cell.text "project"], [Cell.text "x"]])]).reports.lookup
        "Milestone Schedule" = none) := by
  constructor
  · intro sources
    refine ⟨fun k => ?_, ?_, rfl⟩
    · rw [lookup_isSome_iff, loadAllReports_reports]
      constructor
      · intro h
        rcases List.mem_map.mp h with ⟨p, hp, rfl⟩
        rcases List.mem_filterMap.mp hp with ⟨kv, hkv, hmap⟩
        rcases Option.map_eq_some'.mp hmap with ⟨t, ht, rfl⟩
        exact ⟨kv.2, by simpa using hkv, by simp [ht]⟩
      · rintro ⟨src, hmem, hsome⟩
        rcases Option.isSome_iff_exists.mp hsome with ⟨t, ht⟩
        refine List.mem_map.mpr ⟨(k, t), ?_, rfl⟩
        exact List.mem_filterMap.mpr ⟨(k, src), hmem, by simp [ht]⟩
    · show ((loadAllReports sources).reports).length = _
      rw [loadAllReports_reports]
      exact loadAll_length_eq_countP sources
  · refine ⟨?_, rfl, ?_, ?_⟩ <;> with_unfolding_all decide

/-- A lookup off the key set fails. -/
theorem lookup_eq_none_of_not_mem {l : List (String × Table)} {k : String}
    (h : ¬ k ∈ l.map Prod.fst) : l.lookup k = none := by
  cases hl : l.lookup k with
  | none => rfl
  | some t =>
    exfalso
    exact h ((lookup_isSome_iff l k).mp (by rw [hl]; rfl))

/-- C10: with the shipped configuration, `find_your_assignments` always
takes its first error branch and returns `None`: whatever the file system
holds and whatever arguments are passed, the catalog keys are among the
configured display names (`"Cost Estimating"`, …), never the looked-up key
`"cost_estimating"`. -/
theorem findYourAssignments_always_none
    (fs : String → Option (List (List Cell)))
    (nc : Option String) (un : Option String) :
    findYourAssignments
      (loadAllReports (Config.REPORT_FILES.map (fun kf => (kf.1, fs kf.2)))).reports
      nc un = none := by
  have hkeys : ¬ "cost_estimating" ∈
      ((loadAllReports
        (Config.REPORT_FILES.map (fun kf => (kf.1, fs kf.2)))).reports).map
        Prod.fst := by
    intro h
    rw [loadAllReports_reports] at h
    rcases List.mem_map.mp h with ⟨p, hp, hpk⟩
    rcases List.mem_filterMap.mp hp with ⟨kv, hkv, hmap⟩
    rcases Option.map_eq_some'.mp hmap with ⟨t, _, rfl⟩
    rcases List.mem_map.mp hkv with ⟨kf, hkf, rfl⟩
    have : kf.1 = "cost_estimating" := hpk
    have hmem : kf.1 ∈ Config.REPORT_FILES.map Prod.fst :=
      List.mem_map.mpr ⟨kf, hkf, rfl⟩
    rw [this] at hmem
    revert hmem
    decide
  rw [findYourAssignments, lookup_eq_none_of_not_mem hkeys]

/-- Closed witness for `findHeaderRow_earliest_max`: on a grid whose second
row is the only scoring row, the returned row scores strictly above 0. -/
theorem findHeaderRow_earliest_max_witness :
    0 < rowScoreSpec ([[Cell.empty], [Cell.text "project"]].getD
      (findHeaderRow [[Cell.empty], [Cell.text "project"]] 20) []) := by
  rcases findHeaderRow_earliest_max [[Cell.empty], [Cell.text "project"]] 20 with
    ⟨h0, hle⟩ | ⟨_, hpos, _, _⟩
  · exfalso
    have h1 := hle 1 (by decide)
    have h2 : rowScoreSpec ([[Cell.empty], [Cell.text "project"]].getD 1 []) = 130 := by
      with_unfolding_all decide
    rw [h2] at h1
    norm_num at h1
  · exact hpos

/-- Closed witness for `namesMatch_iff_normalized_eq`: two spellings of the
same name normalize identically, hence match. -/
theorem namesMatch_iff_normalized_eq_witness :
    namesMatch "Sauer Shaun" "Shaun Sauer" = true :=
  (namesMatch_iff_normalized_eq.1 "Sauer Shaun" "Shaun Sauer").mpr
    (by with_unfolding_all decide)

/-- Closed witness for `loadAllReports_partial_failure`: in the 4-report
batch with one missing source, a succeeding key resolves in the catalog. -/
theorem loadAllReports_partial_failure_witness :
    (((loadAllReports
        [("Cost Estimating", some [[Cell.text "project"], [Cell.text "x"]]),
         ("Milestone Schedule", none),
         ("Contract Schedule", some [[Cell.text "project"], [Cell.text "x"]]),
         ("Order Data", some [[Cell.text "project"], [Cell.text "x"]])]).reports.lookup
      "Order Data").isSome = true) :=
  ((loadAllReports_partial_failure.1
      [("Cost Estimating", some [[Cell.text "project"], [Cell.text "x"]]),
       ("Milestone Schedule", none),
       ("Contract Schedule", some [[Cell.text "project"], [Cell.text "x"]]),
       ("Order Data", some [[Cell.text "project"], [Cell.text "x"]])]).1
    "Order Data").mpr
    ⟨some [[Cell.text "project"], [Cell.text "x"]],
     by with_unfolding_all decide, by with_unfolding_all decide⟩
